import Mathlib

/-!
Verification of the visual-words pipeline in
`Assignments/HW1/code/visual_words.py`.

The Python module is embedded shallowly:

* numpy arrays become nested lists of exact rationals (`Plane`, `ImageC`);
  an image as received by the module is either a 2-D grayscale array or an
  H×W×C array (`NPImage`);
* the external library routines the module calls (`scipy.ndimage` filters,
  `skimage.color.rgb2lab`) are out of scope per the design and are taken as
  parameters (`ExternalOps`), with shape preservation as an explicit
  hypothesis where a claim needs it;
* the module's process state (the global `PROGRESS` counter, the lock, file
  IO, `np.random` draws) is made explicit: workers are functions of the
  current counter value plus a stream of random draws, and every externally
  visible action is recorded in an event trace (`Event`).
-/

/-- A 2-D numeric array (list of `H` rows, each of `W` entries). Pixel
intensities and filter responses are modelled as exact rationals. -/
abbrev Plane : Type := List (List ℚ)

/-- An H×W×C numeric array: rows of pixels, each pixel a list of channel
values. -/
abbrev ImageC : Type := List (List (List ℚ))

/-- A numpy image as received by `extract_filter_responses`: either a 2-D
grayscale array (`ndim = 2`) or an H×W×C array (`ndim = 3`). -/
inductive NPImage : Type where
  | gray : Plane → NPImage
  | color : ImageC → NPImage
deriving DecidableEq

/-- The 2-D array `p` is rectangular with `H` rows and `W` columns. -/
def IsRect (H W : Nat) (p : Plane) : Prop :=
  p.length = H ∧ ∀ r ∈ p, r.length = W

instance (H W : Nat) (p : Plane) : Decidable (IsRect H W p) :=
  inferInstanceAs (Decidable (p.length = H ∧ ∀ r ∈ p, r.length = W))

/-- The 3-D array `m` is rectangular with shape H×W×C. -/
def IsRect3 (H W C : Nat) (m : ImageC) : Prop :=
  m.length = H ∧ ∀ row ∈ m, row.length = W ∧ ∀ px ∈ row, px.length = C

instance (H W C : Nat) (m : ImageC) : Decidable (IsRect3 H W C m) :=
  inferInstanceAs
    (Decidable (m.length = H ∧ ∀ row ∈ m, row.length = W ∧ ∀ px ∈ row, px.length = C))

/-- Embedding of `np.dstack`: stack equal-shaped 2-D planes along a third
(channel) axis. The spatial dimensions are read off the first plane, as
numpy does for well-formed inputs. -/
def dstack (planes : List Plane) : ImageC :=
  (List.range (planes.headD []).length).map (fun h =>
    (List.range ((planes.headD []).headD []).length).map (fun w =>
      planes.map (fun p => (p.getD h []).getD w 0)))

/-- Channel count of an H×W×C array (`image.shape[2]`), read off the first
pixel. -/
def channels (m : ImageC) : Nat := ((m.headD []).headD []).length

/-- Channel plane `m[:, :, k]`. -/
def channelOf (m : ImageC) (k : Nat) : Plane :=
  m.map (fun row => row.map (fun px => px.getD k 0))

/-- Lines 34-40 of `visual_words.py`: a grayscale image is replicated to 3
channels with `np.dstack([image] * 3)`; an image with more than 3 channels
is truncated to its first 3 with `image[:, :, :3]`. -/
def coerce3 : NPImage → ImageC
  | .gray g => dstack [g, g, g]
  | .color m =>
      if channels m > 3 then m.map (fun row => row.map (fun px => px.take 3)) else m

/-- The external library routines called by `extract_filter_responses`,
taken as parameters (the spec treats color conversion and the scipy filter
internals as external collaborators). `gaussian_filter1d` takes the plane,
the scale, the axis and the derivative order, in the order of the call
sites. -/
structure ExternalOps : Type where
  gaussian_filter : Plane → Zsqrtd 2 → Plane
  gaussian_laplace : Plane → Zsqrtd 2 → Plane
  gaussian_filter1d : Plane → Zsqrtd 2 → Nat → Nat → Plane
  rgb2lab : ℚ → ℚ → ℚ → ℚ × ℚ × ℚ

/-- Line 43: `skimage.color.rgb2lab(image)`, modelled pixelwise (the library
maps each 3-channel RGB pixel independently to a 3-channel LAB pixel). -/
def rgb2labImage (ops : ExternalOps) (m : ImageC) : ImageC :=
  m.map (fun row => row.map (fun px =>
    let c := ops.rgb2lab (px.getD 0 0) (px.getD 1 0) (px.getD 2 0)
    [c.1, c.2.1, c.2.2]))

/-- The color-converted 3-channel image the filters are applied to
(`image_lab` in the source). -/
def labOf (ops : ExternalOps) (image : NPImage) : ImageC :=
  rgb2labImage ops (coerce3 image)

/-- Line 32: `sigmas = [1, 2, 4, 8, 8*math.sqrt(2)]`, represented exactly in
ℤ[√2]: the element with components `a` and `b` denotes the scale a + b·√2. -/
def sigmas : List (Zsqrtd 2) := [⟨1, 0⟩, ⟨2, 0⟩, ⟨4, 0⟩, ⟨8, 0⟩, ⟨0, 8⟩]

/-- Lines 46-63: the twelve response planes appended for one scale, in
source order: 3 Gaussian responses, then 3 Laplacian-of-Gaussian responses,
then 3 x-axis Gaussian-derivative responses (derivative along axis 1, then
smoothing along axis 0), then 3 y-axis Gaussian-derivative responses. -/
def filterBlock (ops : ExternalOps) (lab : ImageC) (σ : Zsqrtd 2) : List Plane :=
  ((List.range 3).map (fun i => ops.gaussian_filter (channelOf lab i) σ)) ++
  ((List.range 3).map (fun i => ops.gaussian_laplace (channelOf lab i) σ)) ++
  ((List.range 3).map (fun i =>
    ops.gaussian_filter1d (ops.gaussian_filter1d (channelOf lab i) σ 1 1) σ 0 0)) ++
  ((List.range 3).map (fun i =>
    ops.gaussian_filter1d (ops.gaussian_filter1d (channelOf lab i) σ 0 1) σ 1 0))

/-- The flat `filter_responses` list built by the loop nest of lines 45-63:
for each scale in order, the twelve planes of `filterBlock`. -/
def filterResponsesList (ops : ExternalOps) (image : NPImage) : List Plane :=
  (sigmas.map (filterBlock ops (labOf ops image))).flatten

/-- Lines 21-67: `extract_filter_responses`. Coerce the image to 3 channels,
convert to LAB, compute the 60 response planes and `np.dstack` them into an
H×W×60 tensor. -/
def extract_filter_responses (ops : ExternalOps) (image : NPImage) : ImageC :=
  dstack (filterResponsesList ops image)

/-- Well-formed input per the spec: spatial dimensions at least 1×1, and
either a rectangular grayscale array or a rectangular H×W×C array with
C = 3 or C > 3. -/
def WellFormed (H W : Nat) (img : NPImage) : Prop :=
  1 ≤ H ∧ 1 ≤ W ∧
    (match img with
     | .gray g => IsRect H W g
     | .color m => 3 ≤ channels m ∧ IsRect3 H W (channels m) m)

instance (H W : Nat) (img : NPImage) : Decidable (WellFormed H W img) :=
  match img with
  | .gray g => inferInstanceAs (Decidable (1 ≤ H ∧ 1 ≤ W ∧ IsRect H W g))
  | .color m =>
      inferInstanceAs
        (Decidable (1 ≤ H ∧ 1 ≤ W ∧ 3 ≤ channels m ∧ IsRect3 H W (channels m) m))

/-- A filter parameter preserves the spatial shape of its input plane (true
of the scipy routines the source calls in `mode` defaults). -/
def ShapePreservingFilter (f : Plane → Zsqrtd 2 → Plane) : Prop :=
  ∀ H W p σ, IsRect H W p → IsRect H W (f p σ)

/-- A 1-D filter parameter preserves the spatial shape of its input plane. -/
def ShapePreservingFilter1d (f : Plane → Zsqrtd 2 → Nat → Nat → Plane) : Prop :=
  ∀ H W p σ axis order, IsRect H W p → IsRect H W (f p σ axis order)

/-- All three abstracted scipy filters preserve shape. -/
def OpsShapePreserving (ops : ExternalOps) : Prop :=
  ShapePreservingFilter ops.gaussian_filter ∧
    ShapePreservingFilter ops.gaussian_laplace ∧
      ShapePreservingFilter1d ops.gaussian_filter1d

/-- Trivial instantiation of the external routines (identity filters,
identity color map), used to evaluate the development on concrete inputs. -/
def idOps : ExternalOps where
  gaussian_filter := fun p _ => p
  gaussian_laplace := fun p _ => p
  gaussian_filter1d := fun p _ _ _ => p
  rgb2lab := fun r g b => (r, g, b)

/-- A concrete 1×1 grayscale image used for concrete evaluations. -/
def testImage : NPImage := NPImage.gray [[1/2]]

/-- Modelled from the spec: squared Euclidean distance between two response
vectors, the metric fixed by §4.5 for nearest-centroid assignment (the
arg-min is unchanged by dropping the square root). -/
def distSq (v w : List ℚ) : ℚ :=
  ((v.zip w).map (fun p => (p.1 - p.2) ^ 2)).sum

/-- Index of the minimum of a list of distances, ties broken toward the
lowest index: the head wins whenever it is less than or equal to the best
of the tail. -/
def argminIdx : List ℚ → Nat
  | [] => 0
  | [_] => 0
  | x :: y :: t =>
      if x ≤ (y :: t).getD (argminIdx (y :: t)) 0 then 0 else argminIdx (y :: t) + 1

/-- Modelled from the spec: the distances of a response vector to each
dictionary centroid, in dictionary order. -/
def distList (dictionary : List (List ℚ)) (v : List ℚ) : List ℚ :=
  dictionary.map (fun c => distSq c v)

/-- Modelled from the spec: index of the centroid nearest to `v` under
Euclidean distance, ties broken by the lowest index (§4.5). -/
def nearestIndex (dictionary : List (List ℚ)) (v : List ℚ) : Nat :=
  argminIdx (distList dictionary v)

/-- Modelled from the spec: `get_visual_words` is an unimplemented stub
(`pass`, lines 69-81 of the source); §4.5 fixes its contract as: run
`extract_filter_responses`, then assign every pixel the index of its
nearest centroid under Euclidean distance, lowest index on ties. -/
def get_visual_words (ops : ExternalOps) (image : NPImage)
    (dictionary : List (List ℚ)) : List (List Nat) :=
  (extract_filter_responses ops image).map (fun row =>
    row.map (fun px => nearestIndex dictionary px))

/-- The response vector of the tensor `m` at pixel (h, w): `m[h, w, :]`. -/
def pixelAt (m : ImageC) (h w : Nat) : List ℚ :=
  (m.getD h []).getD w []

/-- Lines 112-116: the sampling loop of `compute_dictionary_one_image`.
`draw j` is the pair of `np.random.choice` results of iteration `j`; the
loop collects `responses[ran_h, ran_w, :]` for `j` in `range(alpha)`. -/
def sampleLoop (responses : ImageC) (alpha : Nat) (draw : Nat → Nat × Nat) :
    List (List ℚ) :=
  (List.range alpha).map (fun j => pixelAt responses (draw j).1 (draw j).2)

/-- Line 106: `image.astype('float')/255`. -/
def normalize255 : NPImage → NPImage
  | .gray g => .gray (g.map (fun r => r.map (fun v => v / 255)))
  | .color m => .color (m.map (fun row => row.map (fun px => px.map (fun v => v / 255))))

/-- Line 119: the storage path `'../data/sampled_responses/%d' % i` under
which a worker persists its sample batch. -/
def saveKey (i : Nat) : String :=
  "../data/sampled_responses/" ++ toString i

/-- Externally visible actions of the module, recorded as an event trace:
lock operations on `PROGRESS_LOCK`, updates of the global `PROGRESS`
counter, the progress log line, file reads and writes, and (for the
dictionary-builder contract) invocation of the clustering capability and
persistence of a dictionary. -/
inductive Event : Type where
  | lockAcquire : Event
  | lockRelease : Event
  | incrProgress : Nat → Event
  | logLine : Nat → Nat → String → Event
  | readImage : String → Event
  | saveSamples : String → List (List ℚ) → Event
  | clusterInvoke : Nat → Event
  | saveDictionary : String → List (List ℚ) → Event
deriving DecidableEq

/-- Whether an event is an invocation of the clustering capability. -/
def Event.isClusterInvoke : Event → Bool
  | .clusterInvoke _ => true
  | _ => false

/-- Whether an event persists a dictionary artifact. -/
def Event.isSaveDictionary : Event → Bool
  | .saveDictionary _ _ => true
  | _ => false

/-- Whether an event persists a sample batch. -/
def Event.isSaveSamples : Event → Bool
  | .saveSamples _ _ => true
  | _ => false

/-- The keys of all sample batches persisted in a trace, in order. -/
def savedKeysOf (t : List Event) : List String :=
  t.filterMap (fun e => match e with | .saveSamples k _ => some k | _ => none)

/-- The amounts of all `PROGRESS` increments in a trace, in order. -/
def incrementsOf (t : List Event) : List Nat :=
  t.filterMap (fun e => match e with | .incrProgress n => some n | _ => none)

/-- The row counts of all sample batches persisted in a trace, in order. -/
def savedBatchSizes (t : List Event) : List Nat :=
  t.filterMap (fun e => match e with | .saveSamples _ b => some b.length | _ => none)

/-- The events strictly between the first lock acquisition and the next
lock release: the body of the critical section. -/
def criticalSectionOf (t : List Event) : List Event :=
  ((t.dropWhile (fun e => !(e == Event.lockAcquire))).drop 1).takeWhile
    (fun e => !(e == Event.lockRelease))

/-- Lines 83-119: `compute_dictionary_one_image`, run by a pool worker on
one argument triple `(i, alpha, image_path)`. Process state is explicit:
`progress` is the value of the global `PROGRESS` when the worker enters its
critical section, `loadImage` stands for `skimage.io.imread`, and `draw`
is the stream of `np.random.choice` pairs. The result is the new value of
`PROGRESS` and the trace of the worker's actions, in source order: the
locked increment `PROGRESS += 8`, the log line (printed after the lock is
released), the image read, and the `np.save` of the `alpha`-row batch under
the index-derived key. -/
def compute_dictionary_one_image (ops : ExternalOps) (loadImage : String → NPImage)
    (draw : Nat → Nat × Nat) (progress : Nat) (args : Nat × Nat × String) :
    Nat × List Event :=
  let i := args.1
  let alpha := args.2.1
  let image_path := args.2.2
  let progressNew := progress + 8
  let image := normalize255 (loadImage ("../data/" ++ image_path))
  let responses := extract_filter_responses ops image
  let batch := sampleLoop responses alpha draw
  (progressNew,
    [Event.lockAcquire, Event.incrProgress 8, Event.lockRelease,
     Event.logLine progressNew i image_path,
     Event.readImage ("../data/" ++ image_path),
     Event.saveSamples (saveKey i) batch])

/-- Lines 121-144: `compute_dictionary`. It builds the argument list
`(i, 50, image_names[i])` for every training image and maps the worker over
it with a pool of `num_workers` processes, then closes and joins the pool.
The pool only affects interleaving, which the trace abstracts as index
order; `draws i` is the random stream handed to the worker for image `i`.
The body ends after the join: the returned state is the final `PROGRESS`
value and the concatenated worker traces — nothing else happens. -/
def compute_dictionary (ops : ExternalOps) (loadImage : String → NPImage)
    (draws : Nat → Nat → Nat × Nat) (image_names : List String)
    (num_workers : Nat) (progress : Nat) : Nat × List Event :=
  let args := (List.range image_names.length).map
    (fun i => (i, 50, image_names.getD i ""))
  args.foldl
    (fun acc a =>
      let r := compute_dictionary_one_image ops loadImage (draws a.1) acc.1 a
      (r.1, acc.2 ++ r.2))
    (progress, [])

/-- The four filter types of one scale, indexed as in the spec's ordering
statement: 0 = Gaussian, 1 = Laplacian of Gaussian, 2 = x-axis Gaussian
derivative, 3 = y-axis Gaussian derivative. -/
def filterOfType (ops : ExternalOps) (f : Nat) (p : Plane) (σ : Zsqrtd 2) : Plane :=
  if f = 0 then ops.gaussian_filter p σ
  else if f = 1 then ops.gaussian_laplace p σ
  else if f = 2 then ops.gaussian_filter1d (ops.gaussian_filter1d p σ 1 1) σ 0 0
  else ops.gaussian_filter1d (ops.gaussian_filter1d p σ 0 1) σ 1 0

/-- State-and-trace form of `extract_filter_responses`. The body
(lines 21-67) only rebinds its local variable and calls pure array
routines: it reads no global, writes no global, and performs no IO, so
under the explicit-state embedding it returns its pure value, the
`PROGRESS` counter unchanged, and an empty event trace. -/
def extract_filter_responses_run (ops : ExternalOps) (progress : Nat)
    (image : NPImage) : ImageC × Nat × List Event :=
  (extract_filter_responses ops image, progress, [])

/-- Caller-buffer form of `extract_filter_responses`: the second component
is the caller's image array after the call returns. Every step of the body
allocates a fresh array (`np.dstack`, slicing, `rgb2lab`, the scipy
filters) or rebinds the local name `image`; no step assigns into the input
array, so the buffer comes back unchanged. -/
def extract_filter_responses_callerBuffer (ops : ExternalOps) (image : NPImage) :
    ImageC × NPImage :=
  (extract_filter_responses ops image, image)

/-- Concrete image loader for concrete evaluations: every path maps to a
1×1 image. -/
def testLoad : String → NPImage := fun _ => NPImage.gray [[1]]

/-- Concrete random stream for concrete evaluations: every draw is (0,0). -/
def testDraw : Nat → Nat × Nat := fun _ => (0, 0)

/-- Assignment `j` is the index of the centroid of `dictionary` nearest to
the response vector `v` under Euclidean distance, ties broken toward the
lowest index (the quantizer contract of §4.5; stated with the squared
distance, which has the same arg-min). -/
def NearestAssignment (dictionary : List (List ℚ)) (v : List ℚ) (j : Nat) : Prop :=
  j < dictionary.length ∧
  (∀ k < dictionary.length,
    distSq (dictionary.getD j []) v ≤ distSq (dictionary.getD k []) v) ∧
  (∀ k < j, distSq (dictionary.getD j []) v < distSq (dictionary.getD k []) v)

/-- A concrete 2-centroid dictionary of 60-length vectors, for concrete
evaluations. -/
def testDict : List (List ℚ) := [List.replicate 60 1, List.replicate 60 0]

theorem range_map_getD {α : Type} (d : α) (l : List α) :
    (List.range l.length).map (fun i => l.getD i d) = l := by
  induction l with
  | nil => rfl
  | cons x t ih =>
    rw [List.length_cons, List.range_succ_eq_map, List.map_cons, List.map_map]
    simp only [Function.comp, List.getD_cons_zero, List.getD_cons_succ]
    exact congrArg (x :: ·) ih

theorem getD_map_lt {α β : Type} (f : α → β) (l : List α) (k : Nat)
    (hk : k < l.length) (d : β) (d2 : α) :
    (l.map f).getD k d = f (l.getD k d2) := by
  rw [List.getD_eq_getElem _ _ (by simpa using hk), List.getD_eq_getElem _ _ hk,
    List.getElem_map]

theorem getD_mem_of_lt {α : Type} (l : List α) (k : Nat) (hk : k < l.length)
    (d : α) : l.getD k d ∈ l := by
  rw [List.getD_eq_getElem _ _ hk]
  exact List.getElem_mem hk

theorem isRect_tab (H W : Nat) (p : Plane) (hp : IsRect H W p) :
    (List.range H).map (fun h =>
      (List.range W).map (fun w => (p.getD h []).getD w 0)) = p := by
  obtain ⟨hlen, hrow⟩ := hp
  subst hlen
  have h1 : ∀ h ∈ List.range p.length,
      (List.range W).map (fun w => (p.getD h []).getD w 0) = p.getD h [] := by
    intro h hh
    rw [List.mem_range] at hh
    rw [← hrow _ (getD_mem_of_lt p h hh [])]
    exact range_map_getD 0 (p.getD h [])
  rw [List.map_congr_left h1]
  exact range_map_getD [] p

theorem dstack_eq_tab (H W : Nat) (planes : List Plane) (hne : planes ≠ [])
    (hH : 1 ≤ H) (hall : ∀ q ∈ planes, IsRect H W q) :
    dstack planes = (List.range H).map (fun h => (List.range W).map (fun w =>
      planes.map (fun p => (p.getD h []).getD w 0))) := by
  obtain ⟨p0, rest, rfl⟩ := List.exists_cons_of_ne_nil hne
  obtain ⟨h0len, h0row⟩ := hall p0 (by simp)
  have hHeq : ((p0 :: rest).headD []).length = H := by simpa using h0len
  have hWeq : (((p0 :: rest).headD []).headD []).length = W := by
    cases p0 with
    | nil => simp at h0len; omega
    | cons r0 prows => simpa using h0row r0 (by simp)
  rw [dstack, hHeq, hWeq]

theorem dstack_isRect3 (H W : Nat) (planes : List Plane) (hne : planes ≠ [])
    (hH : 1 ≤ H) (hall : ∀ q ∈ planes, IsRect H W q) :
    IsRect3 H W planes.length (dstack planes) := by
  rw [dstack_eq_tab H W planes hne hH hall]
  refine ⟨by simp, ?_⟩
  intro row hrow
  rw [List.mem_map] at hrow
  obtain ⟨h, _, rfl⟩ := hrow
  refine ⟨by simp, ?_⟩
  intro px hpx
  rw [List.mem_map] at hpx
  obtain ⟨w, _, rfl⟩ := hpx
  simp

theorem channelOf_dstack (H W : Nat) (planes : List Plane) (k : Nat)
    (hne : planes ≠ []) (hH : 1 ≤ H) (hk : k < planes.length)
    (hall : ∀ q ∈ planes, IsRect H W q) :
    channelOf (dstack planes) k = planes.getD k [] := by
  rw [dstack_eq_tab H W planes hne hH hall, channelOf, List.map_map]
  refine Eq.trans (List.map_congr_left ?_)
    (isRect_tab H W (planes.getD k []) (hall _ (getD_mem_of_lt planes k hk [])))
  intro h _
  simp only [Function.comp, List.map_map]
  refine List.map_congr_left ?_
  intro w _
  exact getD_map_lt (fun p => (p.getD h []).getD w 0) planes k hk 0 []

theorem coerce3_isRect3 (H W : Nat) (img : NPImage) (hwf : WellFormed H W img) :
    IsRect3 H W 3 (coerce3 img) := by
  obtain ⟨hH, hW, hrest⟩ := hwf
  cases img with
  | gray g =>
    have := dstack_isRect3 H W [g, g, g] (by simp) hH
      (by intro q hq; simp at hq; subst hq; exact hrest)
    simpa using this
  | color m =>
    obtain ⟨hc, hlen, hrow⟩ := hrest
    show IsRect3 H W 3 (if channels m > 3 then _ else m)
    by_cases h3 : channels m > 3
    · rw [if_pos h3]
      refine ⟨by simpa using hlen, ?_⟩
      intro row hrowmem
      rw [List.mem_map] at hrowmem
      obtain ⟨row0, hrow0, rfl⟩ := hrowmem
      obtain ⟨hrl, hpx⟩ := hrow row0 hrow0
      refine ⟨by simpa using hrl, ?_⟩
      intro px hpxmem
      rw [List.mem_map] at hpxmem
      obtain ⟨px0, hpx0, rfl⟩ := hpxmem
      rw [List.length_take, hpx px0 hpx0]
      omega
    · rw [if_neg h3]
      have hc3 : channels m = 3 := by omega
      rw [hc3] at hrow
      exact ⟨hlen, hrow⟩

theorem rgb2labImage_isRect3 (ops : ExternalOps) (H W C : Nat) (m : ImageC)
    (hm : IsRect3 H W C m) : IsRect3 H W 3 (rgb2labImage ops m) := by
  obtain ⟨hlen, hrow⟩ := hm
  refine ⟨by simpa [rgb2labImage] using hlen, ?_⟩
  intro row hrowmem
  rw [rgb2labImage, List.mem_map] at hrowmem
  obtain ⟨row0, hrow0, rfl⟩ := hrowmem
  refine ⟨by simpa using (hrow row0 hrow0).1, ?_⟩
  intro px hpxmem
  rw [List.mem_map] at hpxmem
  obtain ⟨px0, _, rfl⟩ := hpxmem
  rfl

theorem labOf_isRect3 (ops : ExternalOps) (H W : Nat) (img : NPImage)
    (hwf : WellFormed H W img) : IsRect3 H W 3 (labOf ops img) :=
  rgb2labImage_isRect3 ops H W 3 (coerce3 img) (coerce3_isRect3 H W img hwf)

theorem channelOf_isRect (H W C : Nat) (m : ImageC) (k : Nat)
    (hm : IsRect3 H W C m) : IsRect H W (channelOf m k) := by
  obtain ⟨hlen, hrow⟩ := hm
  refine ⟨by simpa [channelOf] using hlen, ?_⟩
  intro r hr
  rw [channelOf, List.mem_map] at hr
  obtain ⟨row0, hrow0, rfl⟩ := hr
  simpa using (hrow row0 hrow0).1

theorem filterResponsesList_length (ops : ExternalOps) (img : NPImage) :
    (filterResponsesList ops img).length = 60 := rfl

theorem filterBlock_shapes (ops : ExternalOps) (H W : Nat) (lab : ImageC)
    (σ : Zsqrtd 2) (hops : OpsShapePreserving ops) (hlab : IsRect3 H W 3 lab) :
    ∀ q ∈ filterBlock ops lab σ, IsRect H W q := by
  obtain ⟨hg, hl, h1⟩ := hops
  intro q hq
  rw [filterBlock] at hq
  simp only [List.mem_append, List.mem_map, List.mem_range] at hq
  have hch : ∀ i, IsRect H W (channelOf lab i) :=
    fun i => channelOf_isRect H W 3 lab i hlab
  rcases hq with ((⟨i, _, rfl⟩ | ⟨i, _, rfl⟩) | ⟨i, _, rfl⟩) | ⟨i, _, rfl⟩
  · exact hg H W _ σ (hch i)
  · exact hl H W _ σ (hch i)
  · exact h1 H W _ σ 0 0 (h1 H W _ σ 1 1 (hch i))
  · exact h1 H W _ σ 1 0 (h1 H W _ σ 0 1 (hch i))

theorem filterResponsesList_shapes (ops : ExternalOps) (H W : Nat) (img : NPImage)
    (hops : OpsShapePreserving ops) (hwf : WellFormed H W img) :
    ∀ q ∈ filterResponsesList ops img, IsRect H W q := by
  intro q hq
  rw [filterResponsesList, List.mem_flatten] at hq
  obtain ⟨blk, hblk, hqblk⟩ := hq
  rw [List.mem_map] at hblk
  obtain ⟨σ, _, rfl⟩ := hblk
  exact filterBlock_shapes ops H W _ σ hops (labOf_isRect3 ops H W img hwf) q hqblk

theorem extract_isRect3 (ops : ExternalOps) (H W : Nat) (img : NPImage)
    (hops : OpsShapePreserving ops) (hwf : WellFormed H W img) :
    IsRect3 H W 60 (extract_filter_responses ops img) := by
  have h60 := filterResponsesList_length ops img
  have hres := dstack_isRect3 H W (filterResponsesList ops img)
    (by intro h; rw [h] at h60; exact absurd h60 (by decide)) hwf.1
    (filterResponsesList_shapes ops H W img hops hwf)
  rwa [h60] at hres

theorem argminIdx_lt_length (l : List ℚ) (h : l ≠ []) : argminIdx l < l.length := by
  induction l with
  | nil => exact absurd rfl h
  | cons x t ih =>
    cases t with
    | nil => simp [argminIdx]
    | cons y s =>
      rw [argminIdx]
      by_cases hle : x ≤ (y :: s).getD (argminIdx (y :: s)) 0
      · rw [if_pos hle]; simp
      · rw [if_neg hle]
        have h2 := ih (by simp)
        simpa [Nat.succ_lt_succ_iff] using h2

theorem argminIdx_min (l : List ℚ) :
    ∀ k < l.length, l.getD (argminIdx l) 0 ≤ l.getD k 0 := by
  induction l with
  | nil => intro k hk; simp at hk
  | cons x t ih =>
    cases t with
    | nil =>
      intro k hk
      simp only [List.length_cons, List.length_nil] at hk
      interval_cases k
      · simp [argminIdx]
    | cons y s =>
      intro k hk
      rw [argminIdx]
      by_cases hle : x ≤ (y :: s).getD (argminIdx (y :: s)) 0
      · rw [if_pos hle]
        cases k with
        | zero => simp
        | succ j =>
          rw [List.getD_cons_zero, List.getD_cons_succ]
          exact le_trans hle (ih j (by simpa [Nat.succ_lt_succ_iff] using hk))
      · rw [if_neg hle]
        rw [List.getD_cons_succ]
        cases k with
        | zero =>
          rw [List.getD_cons_zero]
          exact le_of_lt (lt_of_not_le hle)
        | succ j =>
          rw [List.getD_cons_succ]
          exact ih j (by simpa [Nat.succ_lt_succ_iff] using hk)

theorem argminIdx_tiebreak (l : List ℚ) :
    ∀ k < argminIdx l, l.getD (argminIdx l) 0 < l.getD k 0 := by
  induction l with
  | nil => intro k hk; simp [argminIdx] at hk
  | cons x t ih =>
    cases t with
    | nil => intro k hk; simp [argminIdx] at hk
    | cons y s =>
      intro k hk
      rw [argminIdx] at hk ⊢
      by_cases hle : x ≤ (y :: s).getD (argminIdx (y :: s)) 0
      · rw [if_pos hle] at hk
        exact absurd hk (Nat.not_lt_zero k)
      · rw [if_neg hle] at hk ⊢
        rw [List.getD_cons_succ]
        cases k with
        | zero =>
          rw [List.getD_cons_zero]
          exact lt_of_not_le hle
        | succ j =>
          rw [List.getD_cons_succ]
          exact ih j (by simpa [Nat.succ_lt_succ_iff] using hk)

theorem channels_dstack_cases (planes : List Plane) :
    channels (dstack planes) = 0 ∨ channels (dstack planes) = planes.length := by
  rw [channels, dstack]
  cases hH : (planes.headD []).length with
  | zero => left; simp
  | succ n =>
    cases hW : ((planes.headD []).headD []).length with
    | zero => left; simp [List.range_succ_eq_map]
    | succ m => right; simp [List.range_succ_eq_map]

theorem nearestIndex_spec (dictionary : List (List ℚ)) (v : List ℚ)
    (hd : 1 ≤ dictionary.length) :
    NearestAssignment dictionary v (nearestIndex dictionary v) := by
  simp only [NearestAssignment, nearestIndex]
  have hne : distList dictionary v ≠ [] := by
    rw [distList]
    intro h
    rw [List.map_eq_nil_iff] at h
    rw [h] at hd
    simp at hd
  have hlen : (distList dictionary v).length = dictionary.length := by
    rw [distList, List.length_map]
  have hj : argminIdx (distList dictionary v) < dictionary.length := by
    rw [← hlen]
    exact argminIdx_lt_length _ hne
  have hgd : ∀ k, k < dictionary.length →
      (distList dictionary v).getD k 0 = distSq (dictionary.getD k []) v := by
    intro k hk
    rw [distList]
    exact getD_map_lt (fun c => distSq c v) dictionary k hk 0 []
  refine ⟨hj, ?_, ?_⟩
  · intro k hk
    have h2 := argminIdx_min (distList dictionary v) k (by rwa [hlen])
    rwa [hgd _ hj, hgd _ hk] at h2
  · intro k hk
    have h2 := argminIdx_tiebreak (distList dictionary v) k hk
    rwa [hgd _ hj, hgd _ (lt_trans hk hj)] at h2

theorem pixelAt_length (H W C : Nat) (m : ImageC) (h w : Nat)
    (hm : IsRect3 H W C m) (hh : h < H) (hw : w < W) :
    (pixelAt m h w).length = C := by
  obtain ⟨hlen, hrow⟩ := hm
  have hrm : m.getD h [] ∈ m := getD_mem_of_lt m h (by omega) []
  obtain ⟨hrl, hpx⟩ := hrow _ hrm
  exact hpx _ (getD_mem_of_lt _ w (by omega) [])

theorem worker_events (ops : ExternalOps) (loadImage : String → NPImage)
    (draw : Nat → Nat × Nat) (progress : Nat) (args : Nat × Nat × String) :
    ∀ e ∈ (compute_dictionary_one_image ops loadImage draw progress args).2,
      e.isClusterInvoke = false ∧ e.isSaveDictionary = false := by
  intro e he
  simp only [compute_dictionary_one_image, List.mem_cons, List.not_mem_nil,
    or_false] at he
  rcases he with rfl | rfl | rfl | rfl | rfl | rfl <;> exact ⟨rfl, rfl⟩

/-- C1: for every well-formed input image (H×W grayscale, H×W×3, or
H×W×(>3) numeric tensor with H ≥ 1 and W ≥ 1), `extract_filter_responses`
returns a tensor with exactly 60 channels and the same spatial dimensions
H×W as the (possibly channel-adjusted) input. -/
theorem C1_extract_shape (ops : ExternalOps) (H W : Nat) (img : NPImage)
    (hops : OpsShapePreserving ops) (hwf : WellFormed H W img) :
    IsRect3 H W 60 (extract_filter_responses ops img) :=
  extract_isRect3 ops H W img hops hwf

/-- Witness for C1: the shape contract evaluated at a concrete 1×1
grayscale image with shape-preserving concrete external routines. -/
theorem C1_extract_shape_witness :
    OpsShapePreserving idOps ∧ WellFormed 1 1 testImage ∧
      IsRect3 1 1 60 (extract_filter_responses idOps testImage) :=
  ⟨⟨fun _ _ _ _ h => h, fun _ _ _ _ h => h, fun _ _ _ _ _ _ h => h⟩, by decide,
    C1_extract_shape idOps 1 1 testImage
      ⟨fun _ _ _ _ h => h, fun _ _ _ _ h => h, fun _ _ _ _ _ _ h => h⟩ (by decide)⟩

/-- C6: for every grayscale input image, `extract_filter_responses` returns
the same tensor as on the image with its single channel replicated to 3
channels (the replication being the source's own `np.dstack([image] * 3)`). -/
theorem C6_gray_equals_replicated (ops : ExternalOps) (g : Plane) :
    extract_filter_responses ops (NPImage.gray g) =
      extract_filter_responses ops (NPImage.color (dstack [g, g, g])) := by
  have hle : ¬ channels (dstack [g, g, g]) > 3 := by
    rcases channels_dstack_cases [g, g, g] with h | h
    · omega
    · rw [List.length_cons, List.length_cons, List.length_cons, List.length_nil] at h
      omega
  have hc : coerce3 (NPImage.color (dstack [g, g, g])) = dstack [g, g, g] := by
    show (if channels (dstack [g, g, g]) > 3 then _ else dstack [g, g, g]) =
      dstack [g, g, g]
    rw [if_neg hle]
  rw [extract_filter_responses, extract_filter_responses, filterResponsesList,
    filterResponsesList, labOf, labOf, hc]
  rfl

/-- C8: the storage key under which a worker persists its sample batch is
derived only from the image's index: two runs on items with the same index
but arbitrarily different paths, sample counts, loaders, random draws,
external routines and starting counter values persist under the same key. -/
theorem C8_key_index_only (ops1 ops2 : ExternalOps)
    (load1 load2 : String → NPImage) (draw1 draw2 : Nat → Nat × Nat)
    (p1 p2 : Nat) (i a1 a2 : Nat) (path1 path2 : String) :
    savedKeysOf (compute_dictionary_one_image ops1 load1 draw1 p1 (i, a1, path1)).2 =
      savedKeysOf (compute_dictionary_one_image ops2 load2 draw2 p2 (i, a2, path2)).2 :=
  rfl

/-- C9: `extract_filter_responses` is deterministic and side-effect-free:
its result does not depend on the process state, and it leaves the global
counter unchanged and performs no externally visible action. -/
theorem C9_extract_pure (ops : ExternalOps) (image : NPImage) (p1 p2 : Nat) :
    (extract_filter_responses_run ops p1 image).1 =
        (extract_filter_responses_run ops p2 image).1 ∧
      (extract_filter_responses_run ops p1 image).2.1 = p1 ∧
        (extract_filter_responses_run ops p1 image).2.2 = [] :=
  ⟨rfl, rfl, rfl⟩

/-- C10: `extract_filter_responses` leaves its argument unchanged: the
caller's image buffer holds the same values after the call as before. -/
theorem C10_input_unchanged (ops : ExternalOps) (image : NPImage) :
    (extract_filter_responses_callerBuffer ops image).2 = image :=
  rfl

/-- C4: the 60 output channels follow the fixed ordering: for scale index
`s` into `sigmas = [1, 2, 4, 8, 8√2]`, filter type `f` (0 = Gaussian,
1 = Laplacian of Gaussian, 2 = x-axis derivative, 3 = y-axis derivative)
and color channel `c`, output channel 12·s + 3·f + c is filter `f` at scale
`sigmas[s]` applied to channel `c` of the color-converted image. -/
theorem C4_channel_ordering (ops : ExternalOps) (H W : Nat) (img : NPImage)
    (hops : OpsShapePreserving ops) (hwf : WellFormed H W img)
    (s f c : Nat) (hs : s < 5) (hf : f < 4) (hc : c < 3) :
    channelOf (extract_filter_responses ops img) (12 * s + 3 * f + c) =
      filterOfType ops f (channelOf (labOf ops img) c) (sigmas.getD s 0) := by
  have hlen := filterResponsesList_length ops img
  have hch : channelOf (extract_filter_responses ops img) (12 * s + 3 * f + c) =
      (filterResponsesList ops img).getD (12 * s + 3 * f + c) [] := by
    rw [extract_filter_responses]
    refine channelOf_dstack H W _ _ ?_ hwf.1 ?_
      (filterResponsesList_shapes ops H W img hops hwf)
    · intro h
      rw [h] at hlen
      exact absurd hlen (by decide)
    · rw [hlen]
      omega
  rw [hch]
  interval_cases s <;> interval_cases f <;> interval_cases c <;> rfl

/-- Witness for C4: the ordering contract evaluated at scale 0, filter
type 1 (Laplacian of Gaussian), channel 2, on a concrete 1×1 image. -/
theorem C4_channel_ordering_witness :
    OpsShapePreserving idOps ∧ WellFormed 1 1 testImage ∧
      (0 : Nat) < 5 ∧ (1 : Nat) < 4 ∧ (2 : Nat) < 3 ∧
      channelOf (extract_filter_responses idOps testImage) (12 * 0 + 3 * 1 + 2) =
        filterOfType idOps 1 (channelOf (labOf idOps testImage) 2) (sigmas.getD 0 0) :=
  ⟨⟨fun _ _ _ _ h => h, fun _ _ _ _ h => h, fun _ _ _ _ _ _ h => h⟩, by decide,
    by decide, by decide, by decide,
    C4_channel_ordering idOps 1 1 testImage
      ⟨fun _ _ _ _ h => h, fun _ _ _ _ h => h, fun _ _ _ _ _ _ h => h⟩
      (by decide) 0 1 2 (by decide) (by decide) (by decide)⟩

/-- C2: the quantizer (modelled from §4.5 of the spec, since
`get_visual_words` is an unimplemented stub in the source) returns an H×W
integer grid in which every pixel holds the index of the centroid nearest
to that pixel's 60-length response vector under Euclidean distance, ties
broken by the lowest index. -/
theorem C2_wordmap_nearest (ops : ExternalOps) (H W : Nat) (img : NPImage)
    (dictionary : List (List ℚ)) (hops : OpsShapePreserving ops)
    (hwf : WellFormed H W img) (hdict : 1 ≤ dictionary.length) :
    (get_visual_words ops img dictionary).length = H ∧
    (∀ row ∈ get_visual_words ops img dictionary, row.length = W) ∧
    (∀ h w, h < H → w < W →
      NearestAssignment dictionary
        (pixelAt (extract_filter_responses ops img) h w)
        (((get_visual_words ops img dictionary).getD h []).getD w 0)) := by
  obtain ⟨hRlen, hRrow⟩ := extract_isRect3 ops H W img hops hwf
  refine ⟨by simpa [get_visual_words] using hRlen, ?_, ?_⟩
  · intro row hrow
    rw [get_visual_words, List.mem_map] at hrow
    obtain ⟨row0, hrow0, rfl⟩ := hrow
    simpa using (hRrow row0 hrow0).1
  · intro h w hh hw
    have hhR : h < (extract_filter_responses ops img).length := by omega
    have hrowmem : (extract_filter_responses ops img).getD h [] ∈
        extract_filter_responses ops img := getD_mem_of_lt _ h hhR []
    have hwR : w < ((extract_filter_responses ops img).getD h []).length := by
      rw [(hRrow _ hrowmem).1]
      omega
    have hacc : ((get_visual_words ops img dictionary).getD h []).getD w 0 =
        nearestIndex dictionary (pixelAt (extract_filter_responses ops img) h w) := by
      rw [get_visual_words,
        getD_map_lt (fun row => row.map (fun px => nearestIndex dictionary px))
          (extract_filter_responses ops img) h hhR [] [],
        getD_map_lt (fun px => nearestIndex dictionary px)
          ((extract_filter_responses ops img).getD h []) w hwR 0 [],
        pixelAt]
    rw [hacc]
    exact nearestIndex_spec dictionary _ hdict

/-- Witness for C2: the quantizer contract evaluated at a concrete 1×1
image against a concrete 2-centroid dictionary. -/
theorem C2_wordmap_nearest_witness :
    OpsShapePreserving idOps ∧ WellFormed 1 1 testImage ∧ 1 ≤ testDict.length ∧
      (0 : Nat) < 1 ∧
      NearestAssignment testDict
        (pixelAt (extract_filter_responses idOps testImage) 0 0)
        (((get_visual_words idOps testImage testDict).getD 0 []).getD 0 0) :=
  ⟨⟨fun _ _ _ _ h => h, fun _ _ _ _ h => h, fun _ _ _ _ _ _ h => h⟩, by decide,
    by decide, by decide,
    (C2_wordmap_nearest idOps 1 1 testImage testDict
      ⟨fun _ _ _ _ h => h, fun _ _ _ _ h => h, fun _ _ _ _ _ _ h => h⟩
      (by decide) (by decide)).2.2 0 0 (by decide) (by decide)⟩

/-- C5: the sampling loop of `compute_dictionary_one_image` produces
exactly `alpha` rows, each of length 60, each row being the response vector
of `extract_filter_responses` at the pixel drawn on that iteration (hence
traceable to a real pixel), in the order the coordinates were drawn. -/
theorem C5_sampler (ops : ExternalOps) (H W : Nat) (img : NPImage)
    (alpha : Nat) (draw : Nat → Nat × Nat) (hops : OpsShapePreserving ops)
    (hwf : WellFormed H W img) (halpha : 1 ≤ alpha)
    (hdraw : ∀ j < alpha, (draw j).1 < H ∧ (draw j).2 < W) :
    (sampleLoop (extract_filter_responses ops img) alpha draw).length = alpha ∧
    (∀ j < alpha,
      (sampleLoop (extract_filter_responses ops img) alpha draw).getD j [] =
        pixelAt (extract_filter_responses ops img) (draw j).1 (draw j).2 ∧
      ((sampleLoop (extract_filter_responses ops img) alpha draw).getD j []).length
          = 60 ∧
      ∃ h w, h < H ∧ w < W ∧
        (sampleLoop (extract_filter_responses ops img) alpha draw).getD j [] =
          pixelAt (extract_filter_responses ops img) h w) := by
  have hR := extract_isRect3 ops H W img hops hwf
  refine ⟨by simp [sampleLoop], ?_⟩
  intro j hj
  have hgd : (sampleLoop (extract_filter_responses ops img) alpha draw).getD j [] =
      pixelAt (extract_filter_responses ops img) (draw j).1 (draw j).2 := by
    rw [sampleLoop,
      getD_map_lt (fun j => pixelAt (extract_filter_responses ops img)
        (draw j).1 (draw j).2) (List.range alpha) j (by simpa using hj) [] 0,
      List.getD_eq_getElem _ _ (by simpa using hj), List.getElem_range]
  obtain ⟨hdh, hdw⟩ := hdraw j hj
  refine ⟨hgd, ?_, ⟨(draw j).1, (draw j).2, hdh, hdw, hgd⟩⟩
  rw [hgd]
  exact pixelAt_length H W 60 _ _ _ hR hdh hdw

/-- Witness for C5: the sampler contract evaluated at a concrete 1×1 image
with one draw at pixel (0,0). -/
theorem C5_sampler_witness :
    OpsShapePreserving idOps ∧ WellFormed 1 1 testImage ∧ (1 : Nat) ≤ 1 ∧
      (∀ j < 1, (testDraw j).1 < 1 ∧ (testDraw j).2 < 1) ∧
      ((sampleLoop (extract_filter_responses idOps testImage) 1 testDraw).length = 1 ∧
       (∀ j < 1,
         (sampleLoop (extract_filter_responses idOps testImage) 1 testDraw).getD j [] =
           pixelAt (extract_filter_responses idOps testImage)
             (testDraw j).1 (testDraw j).2 ∧
         ((sampleLoop (extract_filter_responses idOps testImage) 1 testDraw).getD j
             []).length = 60 ∧
         ∃ h w, h < 1 ∧ w < 1 ∧
           (sampleLoop (extract_filter_responses idOps testImage) 1 testDraw).getD j
               [] = pixelAt (extract_filter_responses idOps testImage) h w)) :=
  ⟨⟨fun _ _ _ _ h => h, fun _ _ _ _ h => h, fun _ _ _ _ _ _ h => h⟩, by decide,
    by decide, by decide,
    C5_sampler idOps 1 1 testImage 1 testDraw
      ⟨fun _ _ _ _ h => h, fun _ _ _ _ h => h, fun _ _ _ _ _ _ h => h⟩
      (by decide) (by decide) (by decide)⟩

/-- C3: evidence for the divergence between `compute_dictionary` and its
own docstring and the spec: for every corpus, every loader, every random
stream, every pool size and every starting counter value, the trace of
`compute_dictionary` contains no invocation of the clustering capability
and no persisted dictionary — the function returns right after the pool
join, without reading the sample batches back, clustering, or saving any
dictionary. -/
theorem C3_no_clustering (ops : ExternalOps) (loadImage : String → NPImage)
    (draws : Nat → Nat → Nat × Nat) (image_names : List String)
    (num_workers progress : Nat) :
    ((compute_dictionary ops loadImage draws image_names
        num_workers progress).2).all
      (fun e => !(e.isClusterInvoke || e.isSaveDictionary)) = true := by
  rw [List.all_eq_true]
  suffices hmem : ∀ e ∈ (compute_dictionary ops loadImage draws image_names
      num_workers progress).2,
      e.isClusterInvoke = false ∧ e.isSaveDictionary = false by
    intro e he
    obtain ⟨h1, h2⟩ := hmem e he
    rw [h1, h2]
    rfl
  rw [compute_dictionary]
  generalize (List.range image_names.length).map
    (fun i => (i, 50, image_names.getD i "")) = args
  suffices hgen : ∀ (args : List (Nat × Nat × String)) (st : Nat × List Event),
      (∀ e ∈ st.2, e.isClusterInvoke = false ∧ e.isSaveDictionary = false) →
      ∀ e ∈ (args.foldl (fun acc a =>
          ((compute_dictionary_one_image ops loadImage (draws a.1) acc.1 a).1,
           acc.2 ++ (compute_dictionary_one_image ops loadImage (draws a.1) acc.1 a).2))
          st).2,
        e.isClusterInvoke = false ∧ e.isSaveDictionary = false by
    exact hgen args (progress, []) (by simp)
  intro args
  induction args with
  | nil => intro st hst; exact hst
  | cons a rest ih =>
    intro st hst
    rw [List.foldl_cons]
    refine ih _ ?_
    intro e he
    rw [List.mem_append] at he
    rcases he with he | he
    · exact hst e he
    · exact worker_events ops loadImage (draws a.1) st.1 a e he

/-- C7 (amended): a worker increments the shared counter by the fixed
constant 8 — not by the number of samples it produced — and does so at the
start of the unit of work, before the batch is persisted; only the
increment itself sits in the locked critical section, so the log line is
not atomic with it; the batch it persists has `alpha` rows. -/
theorem C7_progress_increment (ops : ExternalOps) (loadImage : String → NPImage)
    (draw : Nat → Nat × Nat) (progress : Nat) (i alpha : Nat) (path : String) :
    (compute_dictionary_one_image ops loadImage draw progress (i, alpha, path)).1 =
        progress + 8 ∧
    incrementsOf
        (compute_dictionary_one_image ops loadImage draw progress (i, alpha, path)).2 =
      [8] ∧
    criticalSectionOf
        (compute_dictionary_one_image ops loadImage draw progress (i, alpha, path)).2 =
      [Event.incrProgress 8] ∧
    incrementsOf
        (((compute_dictionary_one_image ops loadImage draw progress
            (i, alpha, path)).2).takeWhile (fun e => !(e.isSaveSamples))) = [8] ∧
    savedBatchSizes
        (compute_dictionary_one_image ops loadImage draw progress (i, alpha, path)).2 =
      [alpha] := by
  refine ⟨rfl, rfl, rfl, rfl, ?_⟩
  simp [compute_dictionary_one_image, savedBatchSizes, sampleLoop]

/-- Counterexample for C7 as stated: at a concrete work item with
`alpha = 50` (the value the coordinator passes), the worker's only counter
increment is 8 while the persisted batch has 50 rows, so the increment does
not equal the number of samples produced. -/
theorem C7_counterexample :
    incrementsOf (compute_dictionary_one_image idOps testLoad testDraw 0
        (0, 50, "x.jpg")).2 = [8] ∧
    savedBatchSizes (compute_dictionary_one_image idOps testLoad testDraw 0
        (0, 50, "x.jpg")).2 = [50] ∧
    incrementsOf (compute_dictionary_one_image idOps testLoad testDraw 0
        (0, 50, "x.jpg")).2 ≠
      savedBatchSizes (compute_dictionary_one_image idOps testLoad testDraw 0
        (0, 50, "x.jpg")).2 := by
  have h1 : incrementsOf (compute_dictionary_one_image idOps testLoad testDraw 0
      (0, 50, "x.jpg")).2 = [8] := rfl
  have h2 : savedBatchSizes (compute_dictionary_one_image idOps testLoad testDraw 0
      (0, 50, "x.jpg")).2 = [50] := by
    simp [compute_dictionary_one_image, savedBatchSizes, sampleLoop]
  refine ⟨h1, h2, ?_⟩
  rw [h1, h2]
  decide
